import Mathlib

/-!
# Verification of the portfolio lot-matching engine (`src/calc.py`)

This file gives a shallow embedding of the core of `calc.py`: the
primary-trade-value derivation (`set_primary_trade_value`, lines 98-119), the
oversell check (`check_for_valid_buy_and_sell_quantities`, lines 130-133), the
FIFO matching loop (`create_buy_and_sell_match_df`, lines 142-172 and 189), the
per-match value slicing (`calculate_trade_match_value`, lines 193-194), the
working-set consumption (`subtract_match`, lines 196-204) and the per-lot
currency conversion step (lines 174-183 together with `set_trade_value`,
lines 111-119).

Modelling conventions:
* quantities and monetary values are `ℚ` (the source works on Python floats
  that are rounded to 8 fractional digits after every arithmetic step, so the
  computation lives on the grid of multiples of `10 ^ (-8)`, where rational
  arithmetic is exact);
* trade dates are `ℤ` (only their ordering is used by the engine);
* Python's `round(x, 8)` is modelled by `round8`, rounding half-up on ℚ;
* a pandas `NaN` cell is modelled by `Option.none`;
* Python's `str.lower()` is modelled by `asciiLower` (the comments and
  currency codes involved are ASCII);
* the external price services (CryptoCompare / CoinMarketCap sessions) are
  modelled as an oracle function passed in as an argument;
* a pandas DataFrame whose rows are consumed by label is modelled as a
  `List` indexed by position: `idxmin` returns the first position attaining
  the minimum, matching the documented pandas behaviour ("if multiple values
  equal the minimum, the first row label with that minimum is returned"),
  and label order is preserved by `drop`, so positions model labels.
-/

/-- ASCII lower-casing of one character, as Python's `str.lower()` acts on the
ASCII comments and currency codes appearing in this program. -/
def asciiLowerChar (c : Char) : Char :=
  if 65 ≤ c.toNat ∧ c.toNat ≤ 90 then Char.ofNat (c.toNat + 32) else c

/-- ASCII lower-casing of a string; models `str.lower()` in `calc.py`. -/
def asciiLower (s : String) : String :=
  ⟨s.data.map asciiLowerChar⟩

/-- Python's `round(x, internal_decimal_places)` with
`internal_decimal_places = 8` (line 387): scale by `10 ^ 8`, round to an
integer, scale back.  (Ties are rounded up here; the program never feeds a
tie to `round`, since its claims only exercise the 8-decimal grid, where
`round8` is the identity.) -/
def round8 (q : ℚ) : ℚ :=
  ((⌊q * 100000000 + 1 / 2⌋ : ℤ) : ℚ) / 100000000

/-- `Grid8 q` says `q` is a multiple of `10 ^ (-8)` — the form every
quantity has after the normalizer's `input_df.round(internal_decimal_places)`
(line 87). -/
def Grid8 (q : ℚ) : Prop :=
  ∃ n : ℤ, q * 100000000 = (n : ℚ)

/-- A buy or sell event as built by `create_buy_or_sell_df` (lines 124-128):
one side of a trade row together with the trade's primary value, exchange,
comment and date. -/
structure Event where
  currency : String
  quantity : ℚ
  value : ℚ
  exchange : String
  comment : String
  date : ℤ
deriving DecidableEq, Repr

/-- One row of the `buy_and_sell_match_df` table (columns fixed at line 145).
`sellDate = none` marks a residual holding; `none` in a value column models a
`NaN` cell. -/
structure MatchedLot where
  currency : String
  quantity : ℚ
  buyDate : ℤ
  sellDate : Option ℤ
  buyValue : Option ℚ
  sellValue : Option ℚ
  buyExchange : String
  sellExchange : Option String
  buyComment : String
  sellComment : Option String
deriving DecidableEq, Repr

/-- `set_trade_value` (lines 111-119): a value column whose currency equals
the trade's own currency is replaced by the raw quantity. -/
def set_trade_value (quantity : ℚ) (currency : String) (trade_value : ℚ)
    (trade_value_currency : String) : ℚ :=
  if asciiLower currency = asciiLower trade_value_currency then quantity
  else trade_value

/-- One raw trade row, with the six fields `set_primary_trade_value` reads
(`buy`, `buy_currency`, `buy_value_<primary>`, `sell`, `sell_currency`,
`sell_value_<primary>`). -/
structure TradeRow where
  buy : ℚ
  buy_currency : String
  buy_value_primary : ℚ
  sell : ℚ
  sell_currency : String
  sell_value_primary : ℚ
deriving DecidableEq, Repr

/-- `set_primary_trade_value` (lines 98-109).  The source assigns
`result = set_trade_value(buy, ...)` and then immediately reassigns
`result = set_trade_value(sell, ...)`; the shadowing `let`s reproduce that
verbatim (the buy-side assignment is dead). -/
def set_primary_trade_value (row : TradeRow) (primary_value_currency : String) : ℚ :=
  let buy_value := row.buy_value_primary
  let sell_value := row.sell_value_primary
  if sell_value = 0 then buy_value
  else
    let result := set_trade_value row.buy row.buy_currency sell_value primary_value_currency
    let result := set_trade_value row.sell row.sell_currency sell_value primary_value_currency
    result

/-- `calculate_trade_match_value` (lines 193-194). -/
def calculate_trade_match_value (match_quantity trade_quantity trade_value : ℚ) : ℚ :=
  round8 (match_quantity / trade_quantity * trade_value)

/-- `subtract_match` (lines 196-204): decrement the row at position `i` by
the matched quantity and value (each rounded to 8 places) and drop the row
if its quantity is now exactly zero. -/
def subtract_match (l : List Event) (i : ℕ) (match_quantity match_value : ℚ) :
    List Event :=
  match l[i]? with
  | none => l
  | some e =>
      let q := round8 (e.quantity - match_quantity)
      let v := round8 (e.value - match_value)
      if q = 0 then l.eraseIdx i
      else l.set i { e with quantity := q, value := v }

/-- `Series.idxmin` restricted by a row predicate: the position of the first
row satisfying `p` whose date attains the minimum among rows satisfying `p`
(pandas returns the first label attaining the minimum).  Models the
selections at lines 148 and 151. -/
def firstMin (p : Event → Bool) : List Event → Option (ℕ × Event)
  | [] => none
  | e :: rest =>
      match firstMin p rest with
      | none => if p e then some (0, e) else none
      | some (j, f) =>
          if p e then
            if e.date ≤ f.date then some (0, e) else some (j + 1, f)
          else some (j + 1, f)

/-- The failure modes of the matching pipeline.  `oversell` is the exit at
line 133, `insufficientInventory` the exit at line 157 (carrying the
currency, the sell date and the later buy date it names), `noBuyForCurrency`
the pandas exception raised by `idxmin` on an empty selection at line 151,
and `outOfFuel` is an artefact of the fuel-indexed model that is never
reached when the fuel is at least the total number of working rows. -/
inductive MatchErr where
  | oversell (currency : String)
  | insufficientInventory (currency : String) (sellDate buyDate : ℤ)
  | noBuyForCurrency (currency : String)
  | outOfFuel
deriving DecidableEq, Repr

/-- The `while` loop of `create_buy_and_sell_match_df` (lines 147-170),
indexed by fuel for structural recursion.  Each successful iteration removes
at least one working row, so `buys.length + sells.length` units of fuel
always suffice (`matchLoopF_congr` below).  Returns the emitted matched lots
in emission order together with the residual buy rows. -/
def matchLoopF : ℕ → List Event → List Event → Except MatchErr (List MatchedLot × List Event)
  | fuel, buys, sells =>
    match firstMin (fun _ => true) sells with
    | none => .ok ([], buys)
    | some (si, sell_row) =>
        match firstMin (fun b => b.currency == sell_row.currency) buys with
        | none => .error (.noBuyForCurrency sell_row.currency)
        | some (bi, buy_row) =>
            if sell_row.date < buy_row.date then
              .error (.insufficientInventory sell_row.currency sell_row.date buy_row.date)
            else
              match fuel with
              | 0 => .error .outOfFuel
              | fuel + 1 =>
                  let match_quantity := min buy_row.quantity sell_row.quantity
                  let buy_match_value :=
                    calculate_trade_match_value match_quantity buy_row.quantity buy_row.value
                  let sell_match_value :=
                    calculate_trade_match_value match_quantity sell_row.quantity sell_row.value
                  match matchLoopF fuel
                      (subtract_match buys bi match_quantity buy_match_value)
                      (subtract_match sells si match_quantity sell_match_value) with
                  | .error e => .error e
                  | .ok (lots, residual) =>
                      if asciiLower sell_row.comment = "gift" then
                        .ok (lots, residual)
                      else
                        .ok ({ currency := sell_row.currency
                               quantity := match_quantity
                               buyDate := buy_row.date
                               sellDate := some sell_row.date
                               buyValue := some buy_match_value
                               sellValue := some sell_match_value
                               buyExchange := buy_row.exchange
                               sellExchange := some sell_row.exchange
                               buyComment := buy_row.comment
                               sellComment := some sell_row.comment } :: lots, residual)

/-- The matching loop at its canonical fuel. -/
def matchLoop (buys sells : List Event) : Except MatchErr (List MatchedLot × List Event) :=
  matchLoopF (buys.length + sells.length) buys sells

/-- The comparison of `sort_values(by=['sell_date', 'buy_date'],
ascending=False)` (line 189): descending in the sell date, then descending in
the buy date, with rows whose sell date is `NaT` placed last
(`na_position='last'`). -/
def rowLE (a b : MatchedLot) : Bool :=
  match a.sellDate, b.sellDate with
  | some x, some y => if x = y then decide (b.buyDate ≤ a.buyDate) else decide (y < x)
  | some _, none => true
  | none, some _ => false
  | none, none => decide (b.buyDate ≤ a.buyDate)

/-- Insert a row into a `rowLE`-sorted list. -/
def insertRow (a : MatchedLot) : List MatchedLot → List MatchedLot
  | [] => [a]
  | b :: rest => if rowLE a b then a :: b :: rest else b :: insertRow a rest

/-- The row sort of line 189 (a deterministic sort realising the same keys;
key ties between distinct rows are broken stably here, while pandas' default
quicksort leaves them incidental). -/
def sortRows : List MatchedLot → List MatchedLot
  | [] => []
  | a :: rest => insertRow a (sortRows rest)

/-- Line 172: a leftover buy row folded into the match table by renaming
`buy → quantity`, `buy_currency → currency`, `trade_value_usd → buy_value_usd`,
`exchange/comment/trade_date → buy_*`.  The rename key for the value column is
the hard-coded string `'trade_value_usd'`, so for any primary value currency
other than `usd` the row's primary buy-value cell is left `NaN` (the actual
value survives only in a stray `trade_value_<primary>` column that the column
selection of line 187 then drops). -/
def residual_row (primary_value_currency : String) (b : Event) : MatchedLot :=
  { currency := b.currency
    quantity := b.quantity
    buyDate := b.date
    sellDate := none
    buyValue := if primary_value_currency = "usd" then some b.value else none
    sellValue := none
    buyExchange := b.exchange
    sellExchange := none
    buyComment := b.comment
    sellComment := none }

/-- `create_buy_and_sell_match_df` (lines 142-172 and 189) restricted to the
columns valued in the primary currency: run the matching loop, append the
residual buy rows (line 172), and sort (line 189).  The additional value
columns added by lines 174-185 are modelled per row by
`convert_lot_buy_value` / `convert_lot_sell_value` below; they change neither
the rows present, their quantities, nor the primary-currency columns. -/
def create_buy_and_sell_match_df (buy_df sell_df : List Event)
    (primary_value_currency : String) : Except MatchErr (List MatchedLot) :=
  (matchLoop buy_df sell_df).map
    (fun p => sortRows (p.1 ++ p.2.map (residual_row primary_value_currency)))

/-- Sum of the quantities weighted by a row predicate. -/
def weightedQuantitySum (p : Event → Bool) (l : List Event) : ℚ :=
  (l.map (fun e => if p e then e.quantity else 0)).sum

/-- `df.loc[df[side + '_currency'] == c, side].sum()` (line 132). -/
def quantitySum (c : String) (l : List Event) : ℚ :=
  weightedQuantitySum (fun e => e.currency == c) l

/-- The total quantity of the events of currency `c` whose comment is
(case-insensitively) `gift`. -/
def giftQuantitySum (c : String) (l : List Event) : ℚ :=
  weightedQuantitySum (fun e => e.currency == c && asciiLower e.comment == "gift") l

/-- Sum of the quantities of the rows of currency `c` in a match table. -/
def lotQuantitySum (c : String) (lots : List MatchedLot) : ℚ :=
  (lots.map (fun r => if r.currency == c then r.quantity else 0)).sum

/-- Helper for `Series.unique()`: keep the first occurrence of each value,
skipping values already seen. -/
def uniqueAux (seen : List String) : List String → List String
  | [] => []
  | c :: rest => if c ∈ seen then uniqueAux seen rest else c :: uniqueAux (c :: seen) rest

/-- `Series.unique()` (line 131): the distinct values in first-occurrence
order. -/
def uniqueValues (l : List String) : List String := uniqueAux [] l

/-- `check_for_valid_buy_and_sell_quantities` (lines 130-133): scan the sell
currencies in first-occurrence order and report the first one whose rounded
total sold exceeds its rounded total bought, if any. -/
def check_for_valid_buy_and_sell_quantities (buy_df sell_df : List Event) :
    Option String :=
  (uniqueValues (sell_df.map (fun e => e.currency))).find?
    (fun c => decide (round8 (quantitySum c buy_df) < round8 (quantitySum c sell_df)))

/-- The matching stage of `main` (lines 353-355): the oversell check runs
first and `print_error_message_and_exit` aborts the run before
`create_buy_and_sell_match_df` is ever entered. -/
def run_matching (buy_df sell_df : List Event) (primary_value_currency : String) :
    Except MatchErr (List MatchedLot) :=
  match check_for_valid_buy_and_sell_quantities buy_df sell_df with
  | some c => .error (.oversell c)
  | none => create_buy_and_sell_match_df buy_df sell_df primary_value_currency

/-- `convert_historical_trade_value` (lines 320-321), with the external
CryptoCompare hourly-mean price service abstracted as the oracle `price`. -/
def convert_historical_trade_value (price : String → String → ℤ → ℚ)
    (from_value : ℚ) (from_currency to_currency : String) (trade_date : ℤ) : ℚ :=
  from_value * price from_currency to_currency trade_date

/-- `set_trade_value` as applied by line 183 to a table cell that may already
be `NaN` (modelled `none`): when the row's own currency equals the target
currency the result is the raw quantity even for a `NaN` cell; otherwise the
cell is returned unchanged, `NaN` included. -/
def set_trade_value_cell (quantity : ℚ) (currency : String) (trade_value : Option ℚ)
    (trade_value_currency : String) : Option ℚ :=
  if asciiLower currency = asciiLower trade_value_currency then some quantity
  else trade_value

/-- The buy-side cell of the value column `buy_value_<value_currency>` filled
by the conversion loop (lines 176-183) for one row: every row has a buy date,
so both assignments apply; a missing primary buy value (`NaN`) propagates
through the multiplication of line 181. -/
def convert_lot_buy_value (price : String → String → ℤ → ℚ)
    (primary_value_currency value_currency : String) (row : MatchedLot) : Option ℚ :=
  set_trade_value_cell row.quantity row.currency
    (row.buyValue.map (fun v =>
      convert_historical_trade_value price v primary_value_currency value_currency row.buyDate))
    value_currency

/-- The sell-side cell of the value column `sell_value_<value_currency>`
filled by the conversion loop (lines 176-183) for one row: both assignments
are restricted to rows whose sell date is not null, so a residual holding's
sell-side cell stays `NaN`. -/
def convert_lot_sell_value (price : String → String → ℤ → ℚ)
    (primary_value_currency value_currency : String) (row : MatchedLot) : Option ℚ :=
  match row.sellDate with
  | none => none
  | some d =>
      set_trade_value_cell row.quantity row.currency
        (row.sellValue.map (fun v =>
          convert_historical_trade_value price v primary_value_currency value_currency d))
        value_currency

/-! ## Basic lemmas about `round8` and the 8-decimal grid -/

theorem round8_eval (q : ℚ) :
    round8 q =
      (((q * 100000000 + 1 / 2).num / ((q * 100000000 + 1 / 2).den : ℤ) : ℤ) : ℚ) /
        100000000 := by
  rw [round8, Rat.floor_def]

theorem round8_zero : round8 0 = 0 := by
  rw [round8_eval]; norm_num

theorem grid8_round8 (q : ℚ) : Grid8 (round8 q) := by
  refine ⟨⌊q * 100000000 + 1 / 2⌋, ?_⟩
  rw [round8, div_mul_cancel₀]
  norm_num

theorem grid8_round8_eq {q : ℚ} (h : Grid8 q) : round8 q = q := by
  obtain ⟨n, hn⟩ := h
  have hq : q = (n : ℚ) / 100000000 := by
    field_simp
    linarith [hn]
  have hfl : ⌊(n : ℚ) + 1 / 2⌋ = n := by
    rw [Int.floor_int_add]
    norm_num [Int.floor_eq_zero_iff, Set.mem_Ico]
  rw [round8, hn, hfl, hq]

theorem grid8_sub {a b : ℚ} (ha : Grid8 a) (hb : Grid8 b) : Grid8 (a - b) := by
  obtain ⟨m, hm⟩ := ha
  obtain ⟨n, hn⟩ := hb
  exact ⟨m - n, by push_cast; rw [sub_mul, hm, hn]⟩

theorem grid8_min {a b : ℚ} (ha : Grid8 a) (hb : Grid8 b) : Grid8 (min a b) := by
  rcases min_choice a b with h | h <;> rw [h] <;> assumption

/-! ## Lemmas about `firstMin` (the `idxmin` model) -/

theorem firstMin_eq_some {p : Event → Bool} :
    ∀ {l : List Event} {i : ℕ} {e : Event}, firstMin p l = some (i, e) →
      l[i]? = some e ∧ p e = true := by
  intro l
  induction l with
  | nil => intro i e h; simp [firstMin] at h
  | cons a rest ih =>
      intro i e h
      rw [firstMin] at h
      rcases hr : firstMin p rest with - | ⟨j, f⟩ <;> rw [hr] at h
      · by_cases hp : p a
        · simp [hp] at h
          obtain ⟨rfl, rfl⟩ := h
          simp [hp]
        · simp [hp] at h
      · obtain ⟨hj, hf⟩ := ih hr
        by_cases hp : p a
        · by_cases hd : a.date ≤ f.date
          · simp [hp, hd] at h
            obtain ⟨rfl, rfl⟩ := h
            simp [hp]
          · simp [hp, hd] at h
            obtain ⟨rfl, rfl⟩ := h
            simpa [hf] using hj
        · simp [hp] at h
          obtain ⟨rfl, rfl⟩ := h
          simpa [hf] using hj

theorem firstMin_true_eq_none {l : List Event} :
    firstMin (fun _ => true) l = none ↔ l = [] := by
  cases l with
  | nil => simp [firstMin]
  | cons a rest =>
      simp only [firstMin]
      rcases hr : firstMin (fun _ => true) rest with - | ⟨j, f⟩ <;> simp <;> split <;> simp

theorem firstMin_none {p : Event → Bool} :
    ∀ {l : List Event}, firstMin p l = none →
      ∀ (j : ℕ) (f : Event), l[j]? = some f → p f = true → False := by
  intro l
  induction l with
  | nil => intro h j f hj hf; simp at hj
  | cons a rest ih =>
      intro h j f hj hf
      rw [firstMin] at h
      rcases hr : firstMin p rest with - | ⟨j', f'⟩ <;> rw [hr] at h
      · by_cases hp : p a
        · simp [hp] at h
        · cases j with
          | zero =>
              simp at hj
              subst hj
              simp [hf] at hp
          | succ j => exact ih hr j f (by simpa using hj) hf
      · by_cases hp : p a
        · simp [hp] at h
          split at h <;> simp at h
        · simp [hp] at h

theorem firstMin_date_le {p : Event → Bool} :
    ∀ {l : List Event} {i : ℕ} {e : Event}, firstMin p l = some (i, e) →
      ∀ (j : ℕ) (f : Event), l[j]? = some f → p f = true → e.date ≤ f.date := by
  intro l
  induction l with
  | nil => intro i e h; simp [firstMin] at h
  | cons a rest ih =>
      intro i e h j f hj hf
      rw [firstMin] at h
      rcases hr : firstMin p rest with - | ⟨j', f'⟩ <;> rw [hr] at h
      · -- nothing selectable in `rest`: any selectable row must be the head
        by_cases hp : p a
        · simp [hp] at h
          obtain ⟨-, rfl⟩ := h
          cases j with
          | zero =>
              simp at hj
              subst hj
              exact le_refl _
          | succ j => exact absurd (firstMin_none hr j f (by simpa using hj) hf) not_false
        · simp [hp] at h
      · by_cases hp : p a
        · by_cases hd : a.date ≤ f'.date
          · simp [hp, hd] at h
            obtain ⟨-, rfl⟩ := h
            cases j with
            | zero =>
                simp at hj
                subst hj
                exact le_refl _
            | succ j => exact le_trans hd (ih hr j f (by simpa using hj) hf)
          · simp [hp, hd] at h
            obtain ⟨-, rfl⟩ := h
            cases j with
            | zero =>
                simp at hj
                subst hj
                exact le_of_not_le hd
            | succ j => exact ih hr j f (by simpa using hj) hf
        · simp [hp] at h
          obtain ⟨-, rfl⟩ := h
          cases j with
          | zero =>
              simp at hj
              subst hj
              simp [hf] at hp
          | succ j => exact ih hr j f (by simpa using hj) hf

theorem firstMin_first_on_tie {p : Event → Bool} :
    ∀ {l : List Event} {i : ℕ} {e : Event}, firstMin p l = some (i, e) →
      ∀ (j : ℕ) (f : Event), l[j]? = some f → p f = true → f.date = e.date → i ≤ j := by
  intro l
  induction l with
  | nil => intro i e h; simp [firstMin] at h
  | cons a rest ih =>
      intro i e h j f hj hf hdate
      rw [firstMin] at h
      rcases hr : firstMin p rest with - | ⟨j', f'⟩ <;> rw [hr] at h
      · by_cases hp : p a
        · simp [hp] at h
          obtain ⟨rfl, -⟩ := h
          exact Nat.zero_le j
        · simp [hp] at h
      · by_cases hp : p a
        · by_cases hd : a.date ≤ f'.date
          · simp [hp, hd] at h
            obtain ⟨rfl, -⟩ := h
            exact Nat.zero_le j
          · simp [hp, hd] at h
            obtain ⟨rfl, rfl⟩ := h
            cases j with
            | zero =>
                simp at hj
                subst hj
                exact absurd (le_of_eq hdate) hd
            | succ j => exact Nat.succ_le_succ (ih hr j f (by simpa using hj) hf hdate)
        · simp [hp] at h
          obtain ⟨rfl, rfl⟩ := h
          cases j with
          | zero =>
              simp at hj
              subst hj
              simp [hf] at hp
          | succ j => exact Nat.succ_le_succ (ih hr j f (by simpa using hj) hf hdate)

/-! ## Lemmas about `subtract_match` -/

theorem length_subtract_match_le (l : List Event) (i : ℕ) (mq mv : ℚ) :
    (subtract_match l i mq mv).length ≤ l.length := by
  unfold subtract_match
  cases h : l[i]? with
  | none => exact le_refl _
  | some e =>
      simp only []
      split
      · rw [List.length_eraseIdx]
        split <;> omega
      · rw [List.length_set]

theorem length_subtract_match_lt {l : List Event} {i : ℕ} {e : Event} (h : l[i]? = some e)
    (mq mv : ℚ) (h0 : round8 (e.quantity - mq) = 0) :
    (subtract_match l i mq mv).length < l.length := by
  have hi : i < l.length := (List.getElem?_eq_some.mp h).1
  unfold subtract_match
  rw [h]
  simp only [h0, if_pos]
  rw [List.length_eraseIdx, if_pos hi]
  omega

theorem mem_subtract_match {l : List Event} {i : ℕ} {mq mv : ℚ} {x : Event}
    (hx : x ∈ subtract_match l i mq mv) :
    x ∈ l ∨ ∃ e, l[i]? = some e ∧
      x = { e with quantity := round8 (e.quantity - mq), value := round8 (e.value - mv) } := by
  unfold subtract_match at hx
  cases h : l[i]? with
  | none => rw [h] at hx; exact .inl hx
  | some e =>
      rw [h] at hx
      simp only [] at hx
      split at hx
      · exact .inl (List.mem_of_mem_eraseIdx hx)
      · rcases List.mem_or_eq_of_mem_set hx with h' | h'
        · exact .inl h'
        · exact .inr ⟨e, rfl, h'⟩

theorem grid8_subtract_match {l : List Event} (hg : ∀ e ∈ l, Grid8 e.quantity)
    (i : ℕ) (mq mv : ℚ) : ∀ e ∈ subtract_match l i mq mv, Grid8 e.quantity := by
  intro x hx
  rcases mem_subtract_match hx with h | ⟨e, -, rfl⟩
  · exact hg x h
  · exact grid8_round8 _

/-! ## Lemmas about the weighted quantity sums -/

theorem weightedQuantitySum_nil (p : Event → Bool) : weightedQuantitySum p [] = 0 := rfl

theorem weightedQuantitySum_cons (p : Event → Bool) (a : Event) (l : List Event) :
    weightedQuantitySum p (a :: l) =
      (if p a then a.quantity else 0) + weightedQuantitySum p l := by
  simp [weightedQuantitySum]

theorem weightedQuantitySum_eraseIdx (p : Event → Bool) {l : List Event} {i : ℕ}
    {e : Event} (h : l[i]? = some e) :
    weightedQuantitySum p (l.eraseIdx i) =
      weightedQuantitySum p l - (if p e then e.quantity else 0) := by
  induction l generalizing i with
  | nil => simp at h
  | cons a rest ih =>
      cases i with
      | zero =>
          simp at h
          subst h
          simp [weightedQuantitySum_cons]
      | succ i =>
          simp only [List.getElem?_cons_succ] at h
          rw [List.eraseIdx_cons_succ, weightedQuantitySum_cons, weightedQuantitySum_cons,
            ih h]
          ring

theorem weightedQuantitySum_set (p : Event → Bool) {l : List Event} {i : ℕ}
    {e : Event} (h : l[i]? = some e) (f : Event) :
    weightedQuantitySum p (l.set i f) =
      weightedQuantitySum p l - (if p e then e.quantity else 0) +
        (if p f then f.quantity else 0) := by
  induction l generalizing i with
  | nil => simp at h
  | cons a rest ih =>
      cases i with
      | zero =>
          simp at h
          subst h
          simp [weightedQuantitySum_cons]
          ring
      | succ i =>
          simp only [List.getElem?_cons_succ] at h
          rw [List.set_cons_succ, weightedQuantitySum_cons, weightedQuantitySum_cons,
            ih h]
          ring

theorem weightedQuantitySum_subtract_match {p : Event → Bool}
    (hp : ∀ (e : Event) (q v : ℚ), p { e with quantity := q, value := v } = p e)
    {l : List Event} {i : ℕ} {e : Event} (h : l[i]? = some e) (mq mv : ℚ) :
    weightedQuantitySum p (subtract_match l i mq mv) =
      weightedQuantitySum p l -
        (if p e then e.quantity - round8 (e.quantity - mq) else 0) := by
  unfold subtract_match
  rw [h]
  simp only []
  split
  · rename_i h0
    rw [weightedQuantitySum_eraseIdx p h, h0]
    by_cases hpe : p e <;> simp [hpe]
  · rw [weightedQuantitySum_set p h]
    simp only [hp]
    by_cases hpe : p e
    · simp [hpe]
      ring
    · simp [hpe]

/-! ## Fuel congruence: the loop result is the same at any sufficient fuel -/

theorem step_measure_lt {sells buys : List Event} {si bi : ℕ} {sell_row buy_row : Event}
    (hs : firstMin (fun _ => true) sells = some (si, sell_row))
    (hb : firstMin (fun b => b.currency == sell_row.currency) buys = some (bi, buy_row))
    (bmv smv : ℚ) :
    (subtract_match buys bi (min buy_row.quantity sell_row.quantity) bmv).length +
      (subtract_match sells si (min buy_row.quantity sell_row.quantity) smv).length <
      buys.length + sells.length := by
  obtain ⟨hbi, -⟩ := firstMin_eq_some hb
  obtain ⟨hsi, -⟩ := firstMin_eq_some hs
  rcases le_total buy_row.quantity sell_row.quantity with hle | hle
  · have h0 : round8 (buy_row.quantity - min buy_row.quantity sell_row.quantity) = 0 := by
      rw [min_eq_left hle, sub_self, round8_zero]
    have h1 := length_subtract_match_lt hbi (min buy_row.quantity sell_row.quantity) bmv h0
    have h2 := length_subtract_match_le sells si (min buy_row.quantity sell_row.quantity) smv
    omega
  · have h0 : round8 (sell_row.quantity - min buy_row.quantity sell_row.quantity) = 0 := by
      rw [min_eq_right hle, sub_self, round8_zero]
    have h1 := length_subtract_match_lt hsi (min buy_row.quantity sell_row.quantity) smv h0
    have h2 := length_subtract_match_le buys bi (min buy_row.quantity sell_row.quantity) bmv
    omega

theorem matchLoopF_congr :
    ∀ (n m : ℕ) (buys sells : List Event), buys.length + sells.length ≤ n →
      buys.length + sells.length ≤ m → matchLoopF n buys sells = matchLoopF m buys sells := by
  intro n
  induction n with
  | zero =>
      intro m buys sells h1 h2
      have hb : buys = [] := by
        cases buys with
        | nil => rfl
        | cons a l => simp at h1
      have hs : sells = [] := by
        cases sells with
        | nil => rfl
        | cons a l => simp at h1
      subst hb; subst hs
      rw [matchLoopF, matchLoopF]
      simp [firstMin]
  | succ n ih =>
      intro m buys sells h1 h2
      rw [matchLoopF, matchLoopF]
      split
      · rfl
      · rename_i si sell_row hs
        split
        · rfl
        · rename_i bi buy_row hb
          by_cases hd : sell_row.date < buy_row.date
          · simp only [hd, if_true]
          · simp only [hd, if_false]
            have hlen : 0 < sells.length := by
              obtain ⟨h', -⟩ := firstMin_eq_some hs
              have := (List.getElem?_eq_some.mp h').1
              omega
            obtain ⟨m', rfl⟩ : ∃ m', m = m' + 1 := ⟨m - 1, by omega⟩
            have hmeas := step_measure_lt hs hb
              (calculate_trade_match_value (min buy_row.quantity sell_row.quantity)
                buy_row.quantity buy_row.value)
              (calculate_trade_match_value (min buy_row.quantity sell_row.quantity)
                sell_row.quantity sell_row.value)
            simp only []
            rw [ih m' _ _ (by omega) (by omega)]

/-- At any fuel at least the number of working rows, `matchLoopF` agrees with
`matchLoop`. -/
theorem matchLoopF_eq_matchLoop {n : ℕ} {buys sells : List Event}
    (h : buys.length + sells.length ≤ n) :
    matchLoopF n buys sells = matchLoop buys sells :=
  matchLoopF_congr n (buys.length + sells.length) buys sells h (le_refl _)

/-! ## The sort of line 189 is a permutation -/

theorem insertRow_perm (a : MatchedLot) : ∀ l : List MatchedLot, (insertRow a l).Perm (a :: l)
  | [] => List.Perm.refl _
  | b :: rest => by
      rw [insertRow]
      split
      · exact List.Perm.refl _
      · exact ((insertRow_perm a rest).cons b).trans (List.Perm.swap a b rest)

theorem sortRows_perm : ∀ l : List MatchedLot, (sortRows l).Perm l
  | [] => List.Perm.refl _
  | a :: rest =>
      (insertRow_perm a (sortRows rest)).trans ((sortRows_perm rest).cons a)

theorem lotQuantitySum_cons (c : String) (r : MatchedLot) (l : List MatchedLot) :
    lotQuantitySum c (r :: l) =
      (if r.currency == c then r.quantity else 0) + lotQuantitySum c l := by
  simp [lotQuantitySum]

theorem lotQuantitySum_perm (c : String) {l1 l2 : List MatchedLot} (h : l1.Perm l2) :
    lotQuantitySum c l1 = lotQuantitySum c l2 :=
  List.Perm.sum_eq (h.map _)

theorem lotQuantitySum_append (c : String) (l1 l2 : List MatchedLot) :
    lotQuantitySum c (l1 ++ l2) = lotQuantitySum c l1 + lotQuantitySum c l2 := by
  simp [lotQuantitySum]

theorem lotQuantitySum_map_residual (c pvc : String) :
    ∀ res : List Event, lotQuantitySum c (res.map (residual_row pvc)) = quantitySum c res
  | [] => rfl
  | b :: rest => by
      rw [List.map_cons, lotQuantitySum_cons]
      show _ = weightedQuantitySum _ (b :: rest)
      rw [weightedQuantitySum_cons]
      rw [lotQuantitySum_map_residual c pvc rest]
      rfl

/-! ## Membership in `uniqueValues` -/

theorem mem_uniqueAux :
    ∀ (l seen : List String) (x : String), x ∈ uniqueAux seen l ↔ x ∈ l ∧ x ∉ seen := by
  intro l
  induction l with
  | nil => intro seen x; simp [uniqueAux]
  | cons c rest ih =>
      intro seen x
      rw [uniqueAux]
      by_cases hc : c ∈ seen
      · rw [if_pos hc, ih seen x]
        simp only [List.mem_cons]
        constructor
        · rintro ⟨h1, h2⟩
          exact ⟨Or.inr h1, h2⟩
        · rintro ⟨h1 | h1, h2⟩
          · subst h1; exact absurd hc h2
          · exact ⟨h1, h2⟩
      · rw [if_neg hc]
        simp only [List.mem_cons, ih (c :: seen) x]
        constructor
        · rintro (rfl | ⟨h1, h2⟩)
          · exact ⟨Or.inl rfl, hc⟩
          · push_neg at h2
            exact ⟨Or.inr h1, h2.2⟩
        · rintro ⟨rfl | h1, h2⟩
          · exact Or.inl rfl
          · by_cases hxc : x = c
            · exact Or.inl hxc
            · refine Or.inr ⟨h1, ?_⟩
              push_neg
              exact ⟨hxc, h2⟩

theorem mem_uniqueValues {l : List String} {x : String} :
    x ∈ uniqueValues l ↔ x ∈ l := by
  rw [uniqueValues, mem_uniqueAux]
  simp

/-! ## Conservation of quantity through the matching loop -/

theorem matchLoopF_conservation :
    ∀ (fuel : ℕ) (buys sells : List Event) (lots : List MatchedLot) (res : List Event),
      (∀ e ∈ buys, Grid8 e.quantity) → (∀ e ∈ sells, Grid8 e.quantity) →
      matchLoopF fuel buys sells = .ok (lots, res) → ∀ c : String,
        lotQuantitySum c lots + quantitySum c res =
          quantitySum c buys - giftQuantitySum c sells := by
  intro fuel
  induction fuel with
  | zero =>
      intro buys sells lots res hgb hgs h c
      rw [matchLoopF] at h
      split at h
      · rename_i hs0
        obtain rfl : sells = [] := firstMin_true_eq_none.mp hs0
        cases h
        simp [lotQuantitySum, quantitySum, giftQuantitySum, weightedQuantitySum]
      · split at h
        · cases h
        · split at h
          · cases h
          · cases h
  | succ fuel ih =>
      intro buys sells lots res hgb hgs h c
      rw [matchLoopF] at h
      split at h
      · rename_i hs0
        obtain rfl : sells = [] := firstMin_true_eq_none.mp hs0
        cases h
        simp [lotQuantitySum, quantitySum, giftQuantitySum, weightedQuantitySum]
      · rename_i si sell_row hs
        split at h
        · cases h
        · rename_i bi buy_row hb
          split at h
          · cases h
          · rename_i hd
            simp only [] at h
            obtain ⟨hbi, hpb⟩ := firstMin_eq_some hb
            obtain ⟨hsi, -⟩ := firstMin_eq_some hs
            have hcur : buy_row.currency = sell_row.currency := by
              simpa using hpb
            have hgbq : Grid8 buy_row.quantity := by
              obtain ⟨hlt, heq⟩ := List.getElem?_eq_some.mp hbi
              exact heq ▸ hgb _ (List.getElem_mem hlt)
            have hgsq : Grid8 sell_row.quantity := by
              obtain ⟨hlt, heq⟩ := List.getElem?_eq_some.mp hsi
              exact heq ▸ hgs _ (List.getElem_mem hlt)
            have hgmq : Grid8 (min buy_row.quantity sell_row.quantity) := grid8_min hgbq hgsq
            have hrqb : round8 (buy_row.quantity - min buy_row.quantity sell_row.quantity) =
                buy_row.quantity - min buy_row.quantity sell_row.quantity :=
              grid8_round8_eq (grid8_sub hgbq hgmq)
            have hrqs : round8 (sell_row.quantity - min buy_row.quantity sell_row.quantity) =
                sell_row.quantity - min buy_row.quantity sell_row.quantity :=
              grid8_round8_eq (grid8_sub hgsq hgmq)
            split at h
            · cases h
            · rename_i lots' residual' hrec
              have hihs := ih _ _ lots' residual'
                (grid8_subtract_match hgb bi _ _)
                (grid8_subtract_match hgs si _ _) hrec c
              have hqb := weightedQuantitySum_subtract_match
                (p := fun e => e.currency == c) (fun e q v => rfl) hbi
                (min buy_row.quantity sell_row.quantity)
                (calculate_trade_match_value (min buy_row.quantity sell_row.quantity)
                  buy_row.quantity buy_row.value)
              have hqs := weightedQuantitySum_subtract_match
                (p := fun e => e.currency == c && asciiLower e.comment == "gift")
                (fun e q v => rfl) hsi
                (min buy_row.quantity sell_row.quantity)
                (calculate_trade_match_value (min buy_row.quantity sell_row.quantity)
                  sell_row.quantity sell_row.value)
              rw [hrqb] at hqb
              rw [hrqs] at hqs
              split at h
              · -- gift disposal: no row is emitted, consumption still happens
                rename_i hgift
                cases h
                unfold quantitySum giftQuantitySum at hihs ⊢
                rw [hqb, hqs] at hihs
                rw [hihs]
                have hgiftb : (asciiLower sell_row.comment == "gift") = true := by
                  simpa using hgift
                rw [hcur, hgiftb]
                by_cases hcc : (sell_row.currency == c) <;> simp [hcc] <;> ring
              · rename_i hgift
                cases h
                rw [lotQuantitySum_cons]
                unfold quantitySum giftQuantitySum at hihs ⊢
                rw [hqb, hqs] at hihs
                rw [add_assoc, hihs]
                have hgiftb : (asciiLower sell_row.comment == "gift") = false := by
                  simpa using hgift
                rw [hcur, hgiftb]
                by_cases hcc : (sell_row.currency == c) <;> simp [hcc] <;> ring

/-! ## One-step unfolding of the matching loop -/

theorem except_gift_fold (e : Except MatchErr (List MatchedLot × List Event))
    (C : Prop) [Decidable C] (lot : MatchedLot) :
    (match e with
     | .error err => .error err
     | .ok (lots, residual) =>
         if C then (.ok (lots, residual) : Except MatchErr (List MatchedLot × List Event))
         else .ok (lot :: lots, residual)) =
      e.map (fun pr => (if C then pr.1 else lot :: pr.1, pr.2)) := by
  cases e with
  | error err => rfl
  | ok pr =>
      obtain ⟨lots, residual⟩ := pr
      by_cases h : C <;> simp [Except.map, h]

theorem matchLoop_step_err {buys sells : List Event} {si bi : ℕ}
    {sell_row buy_row : Event}
    (hs : firstMin (fun _ => true) sells = some (si, sell_row))
    (hb : firstMin (fun b => b.currency == sell_row.currency) buys = some (bi, buy_row))
    (hd : sell_row.date < buy_row.date) :
    matchLoop buys sells =
      .error (.insufficientInventory sell_row.currency sell_row.date buy_row.date) := by
  rw [matchLoop, matchLoopF]
  split
  · rename_i hs0
    rw [hs0] at hs
    cases hs
  · rename_i si' sell_row' hs'
    rw [hs'] at hs
    obtain ⟨rfl, rfl⟩ : si' = si ∧ sell_row' = sell_row := by simpa using hs
    split
    · rename_i hb0
      rw [hb0] at hb
      cases hb
    · rename_i bi' buy_row' hb'
      rw [hb'] at hb
      obtain ⟨rfl, rfl⟩ : bi' = bi ∧ buy_row' = buy_row := by simpa using hb
      rw [if_pos hd]

theorem matchLoopF_succ_step {fuel : ℕ} {buys sells : List Event} {si bi : ℕ}
    {sell_row buy_row : Event}
    (hs : firstMin (fun _ => true) sells = some (si, sell_row))
    (hb : firstMin (fun b => b.currency == sell_row.currency) buys = some (bi, buy_row))
    (hd : ¬ sell_row.date < buy_row.date) :
    matchLoopF (fuel + 1) buys sells =
      (matchLoopF fuel
          (subtract_match buys bi (min buy_row.quantity sell_row.quantity)
            (calculate_trade_match_value (min buy_row.quantity sell_row.quantity)
              buy_row.quantity buy_row.value))
          (subtract_match sells si (min buy_row.quantity sell_row.quantity)
            (calculate_trade_match_value (min buy_row.quantity sell_row.quantity)
              sell_row.quantity sell_row.value))).map
        (fun pr =>
          (if asciiLower sell_row.comment = "gift" then pr.1
           else { currency := sell_row.currency
                  quantity := min buy_row.quantity sell_row.quantity
                  buyDate := buy_row.date
                  sellDate := some sell_row.date
                  buyValue := some (calculate_trade_match_value
                    (min buy_row.quantity sell_row.quantity) buy_row.quantity buy_row.value)
                  sellValue := some (calculate_trade_match_value
                    (min buy_row.quantity sell_row.quantity) sell_row.quantity sell_row.value)
                  buyExchange := buy_row.exchange
                  sellExchange := some sell_row.exchange
                  buyComment := buy_row.comment
                  sellComment := some sell_row.comment } :: pr.1, pr.2)) := by
  rw [matchLoopF]
  split
  · rename_i hs0
    rw [hs0] at hs
    cases hs
  · rename_i si' sell_row' hs'
    rw [hs'] at hs
    obtain ⟨rfl, rfl⟩ : si' = si ∧ sell_row' = sell_row := by simpa using hs
    split
    · rename_i hb0
      rw [hb0] at hb
      cases hb
    · rename_i bi' buy_row' hb'
      rw [hb'] at hb
      obtain ⟨rfl, rfl⟩ : bi' = bi ∧ buy_row' = buy_row := by simpa using hb
      rw [if_neg hd]
      split
      · rename_i herr
        exact absurd herr (by omega)
      · rename_i fuel' hfe
        obtain rfl : fuel' = fuel := by omega
        simp only []
        exact except_gift_fold _ _ _

theorem matchLoop_step {buys sells : List Event} {si bi : ℕ}
    {sell_row buy_row : Event}
    (hs : firstMin (fun _ => true) sells = some (si, sell_row))
    (hb : firstMin (fun b => b.currency == sell_row.currency) buys = some (bi, buy_row))
    (hd : ¬ sell_row.date < buy_row.date) :
    matchLoop buys sells =
      (matchLoop
          (subtract_match buys bi (min buy_row.quantity sell_row.quantity)
            (calculate_trade_match_value (min buy_row.quantity sell_row.quantity)
              buy_row.quantity buy_row.value))
          (subtract_match sells si (min buy_row.quantity sell_row.quantity)
            (calculate_trade_match_value (min buy_row.quantity sell_row.quantity)
              sell_row.quantity sell_row.value))).map
        (fun pr =>
          (if asciiLower sell_row.comment = "gift" then pr.1
           else { currency := sell_row.currency
                  quantity := min buy_row.quantity sell_row.quantity
                  buyDate := buy_row.date
                  sellDate := some sell_row.date
                  buyValue := some (calculate_trade_match_value
                    (min buy_row.quantity sell_row.quantity) buy_row.quantity buy_row.value)
                  sellValue := some (calculate_trade_match_value
                    (min buy_row.quantity sell_row.quantity) sell_row.quantity sell_row.value)
                  buyExchange := buy_row.exchange
                  sellExchange := some sell_row.exchange
                  buyComment := buy_row.comment
                  sellComment := some sell_row.comment } :: pr.1, pr.2)) := by
  obtain ⟨n, hn⟩ : ∃ n, buys.length + sells.length = n + 1 := by
    obtain ⟨h', -⟩ := firstMin_eq_some hs
    have := (List.getElem?_eq_some.mp h').1
    exact ⟨buys.length + sells.length - 1, by omega⟩
  have hmeas := step_measure_lt hs hb
    (calculate_trade_match_value (min buy_row.quantity sell_row.quantity)
      buy_row.quantity buy_row.value)
    (calculate_trade_match_value (min buy_row.quantity sell_row.quantity)
      sell_row.quantity sell_row.value)
  rw [matchLoop, hn, matchLoopF_succ_step hs hb hd,
    matchLoopF_eq_matchLoop (by omega)]

/-! ## The claims -/

/-- Claim C2 (confirmed): with buys of 10 and 5 units of asset X at dates
T1 = 1 < T2 = 2 and a sell of 12 units at T3 = 3, the engine produces exactly
two realized lots — 10 units matching the T1 buy to the T3 sell and 2 units
matching the T2 buy to the T3 sell — and leaves a residual holding of 3 units
of the T2 buy.  The second conjunct shows the full match table: the same two
lots and the residual row (sorted descending, residual last). -/
theorem C2_fifo_example :
    matchLoop
        [⟨"X", 10, 1000, "a", "", 1⟩, ⟨"X", 5, 500, "b", "", 2⟩]
        [⟨"X", 12, 1200, "c", "s", 3⟩] =
      .ok ([⟨"X", 10, 1, some 3, some 1000, some 1000, "a", some "c", "", some "s"⟩,
            ⟨"X", 2, 2, some 3, some 200, some 200, "b", some "c", "", some "s"⟩],
           [⟨"X", 3, 300, "b", "", 2⟩]) ∧
    create_buy_and_sell_match_df
        [⟨"X", 10, 1000, "a", "", 1⟩, ⟨"X", 5, 500, "b", "", 2⟩]
        [⟨"X", 12, 1200, "c", "s", 3⟩] "usd" =
      .ok [⟨"X", 2, 2, some 3, some 200, some 200, "b", some "c", "", some "s"⟩,
           ⟨"X", 10, 1, some 3, some 1000, some 1000, "a", some "c", "", some "s"⟩,
           ⟨"X", 3, 2, none, some 300, none, "b", none, "", none⟩] := by
  constructor <;>
    norm_num +decide [matchLoop, matchLoopF, firstMin, subtract_match,
      calculate_trade_match_value, round8_eval, create_buy_and_sell_match_df,
      sortRows, insertRow, rowLE, residual_row, Except.map]

/-- Claim C9 (code bug): the claim says every remaining BuyEvent appears as a
row with null sell date, empty sell-side values, and its remaining quantity
and base-currency value, *for any base currency*.  The rename at line 172
hard-codes the column key `'trade_value_usd'`, so with base currency `eur`
the residual row's primary buy-value cell is `NaN` (here `none`) and the
remaining value 100 is lost, while the identical input under base `usd`
keeps it.  The quantity, date, exchange and comment columns survive either
way. -/
theorem C9_residual_value_lost_non_usd :
    create_buy_and_sell_match_df [⟨"btc", 2, 100, "x", "k", 1⟩] [] "eur" =
      .ok [⟨"btc", 2, 1, none, none, none, "x", none, "k", none⟩] ∧
    create_buy_and_sell_match_df [⟨"btc", 2, 100, "x", "k", 1⟩] [] "usd" =
      .ok [⟨"btc", 2, 1, none, some 100, none, "x", none, "k", none⟩] := by
  constructor <;>
    norm_num +decide [matchLoop, matchLoopF, firstMin,
      create_buy_and_sell_match_df, sortRows, insertRow, residual_row, Except.map]

/-- Claim C1, counterexample: a single buy of 10 btc consumed entirely by a
"Gift" sell produces an empty match table, so the summed quantity over the
emitted rows (0) differs from the summed original buy quantity (10): the
claim as stated fails whenever a gift disposal consumes inventory. -/
theorem C1_counterexample :
    create_buy_and_sell_match_df
        [⟨"btc", 10, 100, "e1", "", 1⟩] [⟨"btc", 10, 80, "e2", "Gift", 2⟩] "usd" =
      .ok [] ∧
    lotQuantitySum "btc" [] = 0 ∧
    quantitySum "btc" [⟨"btc", 10, 100, "e1", "", 1⟩] = 10 ∧
    (0 : ℚ) ≠ 10 := by
  refine ⟨?_, ?_, ?_, by norm_num⟩ <;>
    norm_num +decide [matchLoop, matchLoopF, firstMin, subtract_match,
      calculate_trade_match_value, round8_eval, create_buy_and_sell_match_df,
      sortRows, insertRow, residual_row, Except.map, lotQuantitySum,
      quantitySum, weightedQuantitySum]

/-- Claim C1, amended (corrected): for inputs on the 8-decimal grid, the sum
of the quantities across all emitted rows of a currency (realized lots plus
residual holdings) equals the sum of the original BuyEvent quantities of
that currency *minus the total quantity of its SellEvents whose comment is
case-insensitively "gift"* — gift disposals consume inventory without
emitting a row, so exact conservation holds only after accounting for
them. -/
theorem C1_conservation (buys sells : List Event) (rows : List MatchedLot)
    (primary_value_currency : String)
    (hgb : ∀ e ∈ buys, Grid8 e.quantity) (hgs : ∀ e ∈ sells, Grid8 e.quantity)
    (h : create_buy_and_sell_match_df buys sells primary_value_currency = .ok rows)
    (c : String) :
    lotQuantitySum c rows = quantitySum c buys - giftQuantitySum c sells := by
  unfold create_buy_and_sell_match_df at h
  cases hm : matchLoop buys sells with
  | error e => rw [hm] at h; cases h
  | ok p =>
      obtain ⟨lots, res⟩ := p
      rw [hm] at h
      simp only [Except.map] at h
      cases h
      rw [lotQuantitySum_perm c (sortRows_perm _), lotQuantitySum_append,
        lotQuantitySum_map_residual]
      exact matchLoopF_conservation _ buys sells lots res hgb hgs hm c

/-- Witness for `C1_conservation`: a buy of 10 btc and a gift sell of 4, the
theorem instantiated at currency btc: the single emitted row (the residual
holding of 6 btc) sums to 10 - 4. -/
theorem C1_conservation_witness :
    lotQuantitySum "btc" [⟨"btc", 6, 1, none, some 60, none, "e1", none, "", none⟩] =
      quantitySum "btc" [⟨"btc", 10, 100, "e1", "", 1⟩] -
        giftQuantitySum "btc" [⟨"btc", 4, 40, "e2", "Gift", 2⟩] :=
  C1_conservation [⟨"btc", 10, 100, "e1", "", 1⟩] [⟨"btc", 4, 40, "e2", "Gift", 2⟩] _ "usd"
    (by
      intro e he
      simp only [List.mem_singleton] at he
      subst he
      exact ⟨1000000000, by norm_num⟩)
    (by
      intro e he
      simp only [List.mem_singleton] at he
      subst he
      exact ⟨400000000, by norm_num⟩)
    (by
      norm_num +decide [matchLoop, matchLoopF, firstMin, subtract_match,
        calculate_trade_match_value, round8_eval, create_buy_and_sell_match_df,
        sortRows, insertRow, residual_row, Except.map])
    "btc"

/-- Claim C3 (confirmed): the oversell check fires exactly when some sell
currency's rounded total sold exceeds its rounded total bought, and when it
fires the pipeline of `main` stops with the oversell error before
`create_buy_and_sell_match_df` runs, naming the offending currency — no
matching is performed. -/
theorem C3_no_oversell (buys sells : List Event) (primary_value_currency : String) :
    ((check_for_valid_buy_and_sell_quantities buys sells).isSome ↔
      ∃ e ∈ sells, round8 (quantitySum e.currency buys) <
        round8 (quantitySum e.currency sells)) ∧
    ∀ c, check_for_valid_buy_and_sell_quantities buys sells = some c →
      run_matching buys sells primary_value_currency = .error (.oversell c) := by
  constructor
  · rw [check_for_valid_buy_and_sell_quantities, List.find?_isSome]
    constructor
    · rintro ⟨x, hx, hp⟩
      rw [mem_uniqueValues, List.mem_map] at hx
      obtain ⟨e, he, rfl⟩ := hx
      exact ⟨e, he, by simpa using hp⟩
    · rintro ⟨e, he, hlt⟩
      refine ⟨e.currency, ?_, by simpa using hlt⟩
      rw [mem_uniqueValues, List.mem_map]
      exact ⟨e, he, rfl⟩
  · intro c hc
    rw [run_matching, hc]

/-- Witness for `C3_no_oversell`: selling 5 btc with no buys at all aborts
with the oversell error naming btc. -/
theorem C3_no_oversell_witness :
    run_matching [] [⟨"btc", 5, 50, "x", "", 1⟩] "usd" = .error (.oversell "btc") :=
  (C3_no_oversell [] [⟨"btc", 5, 50, "x", "", 1⟩] "usd").2 "btc"
    (by
      norm_num +decide [check_for_valid_buy_and_sell_quantities, uniqueValues,
        uniqueAux, quantitySum, weightedQuantitySum, round8_eval])

/-- Claim C4 (confirmed): once the earliest-dated sell and the earliest-dated
buy of its currency are selected, a buy dated strictly later than the sell
aborts the whole loop with the insufficient-inventory error naming the
currency, the sell date and the later buy date (no lots are produced);
otherwise the iteration proceeds to match: the result is the continuation on
the decremented working sets, with the new lot prepended unless the sell is a
gift. -/
theorem C4_insufficient_inventory (buys sells : List Event) (si bi : ℕ)
    (sell_row buy_row : Event)
    (hs : firstMin (fun _ => true) sells = some (si, sell_row))
    (hb : firstMin (fun b => b.currency == sell_row.currency) buys = some (bi, buy_row)) :
    (sell_row.date < buy_row.date →
      matchLoop buys sells =
        .error (.insufficientInventory sell_row.currency sell_row.date buy_row.date)) ∧
    (¬ sell_row.date < buy_row.date →
      matchLoop buys sells =
        (matchLoop
            (subtract_match buys bi (min buy_row.quantity sell_row.quantity)
              (calculate_trade_match_value (min buy_row.quantity sell_row.quantity)
                buy_row.quantity buy_row.value))
            (subtract_match sells si (min buy_row.quantity sell_row.quantity)
              (calculate_trade_match_value (min buy_row.quantity sell_row.quantity)
                sell_row.quantity sell_row.value))).map
          (fun pr =>
            (if asciiLower sell_row.comment = "gift" then pr.1
             else { currency := sell_row.currency
                    quantity := min buy_row.quantity sell_row.quantity
                    buyDate := buy_row.date
                    sellDate := some sell_row.date
                    buyValue := some (calculate_trade_match_value
                      (min buy_row.quantity sell_row.quantity) buy_row.quantity buy_row.value)
                    sellValue := some (calculate_trade_match_value
                      (min buy_row.quantity sell_row.quantity) sell_row.quantity sell_row.value)
                    buyExchange := buy_row.exchange
                    sellExchange := some sell_row.exchange
                    buyComment := buy_row.comment
                    sellComment := some sell_row.comment } :: pr.1, pr.2))) :=
  ⟨fun hd => matchLoop_step_err hs hb hd, fun hd => matchLoop_step hs hb hd⟩

/-- Witness for `C4_insufficient_inventory`: a sell of btc at date 3 whose
only buy is dated 10 aborts with the error naming btc, 3 and 10. -/
theorem C4_insufficient_inventory_witness :
    matchLoop [⟨"btc", 5, 50, "e", "", 10⟩] [⟨"btc", 5, 50, "f", "", 3⟩] =
      .error (.insufficientInventory "btc" 3 10) :=
  (C4_insufficient_inventory [⟨"btc", 5, 50, "e", "", 10⟩] [⟨"btc", 5, 50, "f", "", 3⟩]
      0 0 ⟨"btc", 5, 50, "f", "", 3⟩ ⟨"btc", 5, 50, "e", "", 10⟩
      (by norm_num [firstMin]) (by norm_num [firstMin])).1 (by decide)

theorem except_map_eq_ok {ε α β : Type} {f : α → β} {x : Except ε α} {y : β}
    (h : x.map f = .ok y) : ∃ z, x = .ok z ∧ y = f z := by
  cases x with
  | error e => simp [Except.map] at h
  | ok z =>
      refine ⟨z, rfl, ?_⟩
      simpa [Except.map] using h.symm

/-- Claim C5 (confirmed): in a (non-gift) matching iteration, the emitted lot
carries `matchQuantity = min(buyQuantity, sellQuantity)` and each side's
matched value is `round(matchQuantity / sideQuantity * sideValue, 8)`, a
proportional slice of that side's remaining value. -/
theorem C5_match_quantity_and_value (buys sells : List Event) (si bi : ℕ)
    (sell_row buy_row : Event) (lots : List MatchedLot) (res : List Event)
    (hs : firstMin (fun _ => true) sells = some (si, sell_row))
    (hb : firstMin (fun b => b.currency == sell_row.currency) buys = some (bi, buy_row))
    (hd : ¬ sell_row.date < buy_row.date)
    (hgift : ¬ asciiLower sell_row.comment = "gift")
    (hok : matchLoop buys sells = .ok (lots, res)) :
    lots.head? =
      some { currency := sell_row.currency
             quantity := min buy_row.quantity sell_row.quantity
             buyDate := buy_row.date
             sellDate := some sell_row.date
             buyValue := some (round8 (min buy_row.quantity sell_row.quantity /
               buy_row.quantity * buy_row.value))
             sellValue := some (round8 (min buy_row.quantity sell_row.quantity /
               sell_row.quantity * sell_row.value))
             buyExchange := buy_row.exchange
             sellExchange := some sell_row.exchange
             buyComment := buy_row.comment
             sellComment := some sell_row.comment } := by
  rw [matchLoop_step hs hb hd] at hok
  obtain ⟨⟨lots', res'⟩, -, hy⟩ := except_map_eq_ok hok
  rw [if_neg hgift] at hy
  obtain ⟨rfl, rfl⟩ : lots = _ :: lots' ∧ res = res' := by simpa using hy
  simp [calculate_trade_match_value]

/-- Witness for `C5_match_quantity_and_value`: a buy of 2 btc (value 20) and
a sell of 2 btc (value 30) at a later date: the emitted head lot has
quantity `min 2 2` and the rounded proportional values. -/
theorem C5_match_quantity_and_value_witness :
    ([⟨"btc", 2, 1, some 5, some 20, some 30, "e", some "f", "c1", some "c2"⟩] :
        List MatchedLot).head? =
      some { currency := "btc"
             quantity := min (2 : ℚ) 2
             buyDate := 1
             sellDate := some 5
             buyValue := some (round8 (min (2 : ℚ) 2 / 2 * 20))
             sellValue := some (round8 (min (2 : ℚ) 2 / 2 * 30))
             buyExchange := "e"
             sellExchange := some "f"
             buyComment := "c1"
             sellComment := some "c2" } :=
  C5_match_quantity_and_value [⟨"btc", 2, 20, "e", "c1", 1⟩] [⟨"btc", 2, 30, "f", "c2", 5⟩]
    0 0 ⟨"btc", 2, 30, "f", "c2", 5⟩ ⟨"btc", 2, 20, "e", "c1", 1⟩
    [⟨"btc", 2, 1, some 5, some 20, some 30, "e", some "f", "c1", some "c2"⟩] []
    (by norm_num [firstMin]) (by norm_num [firstMin]) (by decide) (by decide)
    (by
      norm_num +decide [matchLoop, matchLoopF, firstMin, subtract_match,
        calculate_trade_match_value, round8_eval, Except.map])

theorem except_map_gift_id {x : Except MatchErr (List MatchedLot × List Event)}
    {C : Prop} [Decidable C] {lot : MatchedLot} (hC : C) :
    x.map (fun pr => (if C then pr.1 else lot :: pr.1, pr.2)) = x := by
  cases x with
  | error e => rfl
  | ok pr => simp [Except.map, hC]

/-- Claim C6 (confirmed): when the selected sell's comment is
case-insensitively "gift", the iteration emits no row — the loop's result is
exactly the result of continuing on the working sets decremented by the very
same matched quantity and values as a non-gift sell — and (second conjunct)
a working entry whose quantity reaches exactly zero is removed from the
working set. -/
theorem C6_gift_exclusion (buys sells : List Event) (si bi : ℕ)
    (sell_row buy_row : Event)
    (hs : firstMin (fun _ => true) sells = some (si, sell_row))
    (hb : firstMin (fun b => b.currency == sell_row.currency) buys = some (bi, buy_row))
    (hd : ¬ sell_row.date < buy_row.date)
    (hgift : asciiLower sell_row.comment = "gift") :
    matchLoop buys sells =
      matchLoop
        (subtract_match buys bi (min buy_row.quantity sell_row.quantity)
          (calculate_trade_match_value (min buy_row.quantity sell_row.quantity)
            buy_row.quantity buy_row.value))
        (subtract_match sells si (min buy_row.quantity sell_row.quantity)
          (calculate_trade_match_value (min buy_row.quantity sell_row.quantity)
            sell_row.quantity sell_row.value)) ∧
    (∀ (l : List Event) (i : ℕ) (mq mv : ℚ) (e : Event), l[i]? = some e →
      round8 (e.quantity - mq) = 0 → subtract_match l i mq mv = l.eraseIdx i) := by
  constructor
  · rw [matchLoop_step hs hb hd]
    exact except_map_gift_id hgift
  · intro l i mq mv e h h0
    unfold subtract_match
    rw [h]
    simp [h0]

/-- Witness for `C6_gift_exclusion`: a gift sell of 4 btc against a buy of
10: the loop's result equals the continuation on the decremented working
sets. -/
theorem C6_gift_exclusion_witness :
    matchLoop [⟨"btc", 10, 100, "e", "", 1⟩] [⟨"btc", 4, 40, "f", "Gift", 2⟩] =
      matchLoop
        (subtract_match [⟨"btc", 10, 100, "e", "", 1⟩] 0 (min (10 : ℚ) 4)
          (calculate_trade_match_value (min (10 : ℚ) 4) 10 100))
        (subtract_match [⟨"btc", 4, 40, "f", "Gift", 2⟩] 0 (min (10 : ℚ) 4)
          (calculate_trade_match_value (min (10 : ℚ) 4) 4 40)) :=
  (C6_gift_exclusion [⟨"btc", 10, 100, "e", "", 1⟩] [⟨"btc", 4, 40, "f", "Gift", 2⟩]
      0 0 ⟨"btc", 4, 40, "f", "Gift", 2⟩ ⟨"btc", 10, 100, "e", "", 1⟩
      (by norm_num [firstMin]) (by norm_num [firstMin]) (by decide) (by decide)).1

/-- Claim C7, counterexample: for the row (buy 100 USD valued 100, sell
1 BTC with sell-side base value 90) under base currency usd, the sell value
is nonzero, and the claim's "each side independently" rule makes the buy
side's value its raw quantity 100 (the buy currency equals the base); but
the derived primary trade value is 90 — the buy-side assignment of line 106
is immediately overwritten by the sell-side assignment of line 107, so the
derived value is not the buy side's determination. -/
theorem C7_counterexample :
    set_primary_trade_value ⟨100, "USD", 100, 1, "BTC", 90⟩ "usd" = 90 ∧
    set_trade_value 100 "USD" 90 "usd" = 100 ∧
    (90 : ℚ) ≠ 100 := by
  refine ⟨?_, ?_, by norm_num⟩ <;>
    norm_num +decide [set_primary_trade_value, set_trade_value]

/-- Claim C7, amended (corrected): the derived primary trade value is the
buy side's base-currency value when the sell side's base-currency value is
zero; otherwise it is determined by the sell side alone — the sell side's
raw quantity when the sell currency equals the base currency
(case-insensitively), else the sell-side base-currency value.  (A buy-side
value is computed the same way at line 106 but immediately overwritten.) -/
theorem C7_primary_trade_value (row : TradeRow) (primary_value_currency : String) :
    (row.sell_value_primary = 0 →
      set_primary_trade_value row primary_value_currency = row.buy_value_primary) ∧
    (row.sell_value_primary ≠ 0 →
      set_primary_trade_value row primary_value_currency =
        if asciiLower row.sell_currency = asciiLower primary_value_currency
        then row.sell else row.sell_value_primary) := by
  unfold set_primary_trade_value set_trade_value
  constructor
  · intro h0
    simp [h0]
  · intro h0
    simp [h0]

/-- Witness for `C7_primary_trade_value`: a row selling 2 btc with sell-side
base value 7 under base usd derives the sell-side determination. -/
theorem C7_primary_trade_value_witness :
    set_primary_trade_value ⟨1, "eth", 5, 2, "btc", 7⟩ "usd" =
      if asciiLower "btc" = asciiLower "usd" then (2 : ℚ) else 7 :=
  (C7_primary_trade_value ⟨1, "eth", 5, 2, "btc", 7⟩ "usd").2 (by norm_num)

/-- Claim C8 (confirmed): for any rate oracle, any primary currency and any
target reference currency, a row whose own asset currency equals the target
currency (case-insensitively) gets its raw quantity as its converted value —
on the buy side always, and on the sell side whenever the row has a sell
date (the conversion loop of lines 174-183 only touches rows with a non-null
date on the relevant side). -/
theorem C8_self_currency_identity (price : String → String → ℤ → ℚ)
    (primary_value_currency value_currency : String) (row : MatchedLot)
    (h : asciiLower row.currency = asciiLower value_currency) :
    convert_lot_buy_value price primary_value_currency value_currency row =
      some row.quantity ∧
    (row.sellDate.isSome →
      convert_lot_sell_value price primary_value_currency value_currency row =
        some row.quantity) := by
  constructor
  · unfold convert_lot_buy_value set_trade_value_cell
    rw [if_pos h]
  · intro hsd
    unfold convert_lot_sell_value
    cases hs : row.sellDate with
    | none =>
        rw [hs] at hsd
        simp at hsd
    | some d =>
        unfold set_trade_value_cell
        simp [h]

/-- Witness for `C8_self_currency_identity`: a realized lot of 2 BTC
converted into target currency btc under a constant external rate 7 values
both sides at the raw quantity 2, the rate notwithstanding. -/
theorem C8_self_currency_identity_witness :
    convert_lot_buy_value (fun _ _ _ => 7) "usd" "btc"
        ⟨"BTC", 2, 1, some 5, some 20, some 30, "e", some "f", "c1", some "c2"⟩ =
      some 2 ∧
    convert_lot_sell_value (fun _ _ _ => 7) "usd" "btc"
        ⟨"BTC", 2, 1, some 5, some 20, some 30, "e", some "f", "c1", some "c2"⟩ =
      some 2 :=
  ⟨(C8_self_currency_identity (fun _ _ _ => 7) "usd" "btc"
      ⟨"BTC", 2, 1, some 5, some 20, some 30, "e", some "f", "c1", some "c2"⟩
      (by decide)).1,
   (C8_self_currency_identity (fun _ _ _ => 7) "usd" "btc"
      ⟨"BTC", 2, 1, some 5, some 20, some 30, "e", some "f", "c1", some "c2"⟩
      (by decide)).2 rfl⟩

/-- Claim C10 (confirmed): the selection used for both the sell pick (line
148) and the buy pick (line 151) is deterministic: the selected row
satisfies the filter, attains the minimal date among rows satisfying the
filter, and on a date tie is the row occurring earliest in the original
input order (pandas `idxmin` returns the first label attaining the minimum);
since the embedded engine is a pure function of its input, two runs on the
same input produce identical output. -/
theorem C10_deterministic_tie_break (p : Event → Bool) (l : List Event)
    (i : ℕ) (e : Event) (h : firstMin p l = some (i, e)) :
    l[i]? = some e ∧ p e = true ∧
    ∀ (j : ℕ) (f : Event), l[j]? = some f → p f = true →
      e.date ≤ f.date ∧ (f.date = e.date → i ≤ j) :=
  ⟨(firstMin_eq_some h).1, (firstMin_eq_some h).2,
    fun j f hj hf => ⟨firstMin_date_le h j f hj hf,
      fun hd => firstMin_first_on_tie h j f hj hf hd⟩⟩

/-- Witness for `C10_deterministic_tie_break`: two rows with the same date 5;
the selection picks position 0, whose date is minimal, and the tie at
position 1 confirms 0 ≤ 1. -/
theorem C10_deterministic_tie_break_witness :
    ([⟨"a", 1, 1, "x", "", 5⟩, ⟨"b", 1, 1, "y", "", 5⟩] : List Event)[0]? =
        some ⟨"a", 1, 1, "x", "", 5⟩ ∧
    (5 : ℤ) ≤ 5 ∧ (0 : ℕ) ≤ 1 := by
  have h := C10_deterministic_tie_break (fun _ => true)
    [⟨"a", 1, 1, "x", "", 5⟩, ⟨"b", 1, 1, "y", "", 5⟩] 0 ⟨"a", 1, 1, "x", "", 5⟩
    (by norm_num [firstMin])
  refine ⟨h.1, ?_, ?_⟩
  · exact (h.2.2 1 ⟨"b", 1, 1, "y", "", 5⟩ (by norm_num) rfl).1
  · exact (h.2.2 1 ⟨"b", 1, 1, "y", "", 5⟩ (by norm_num) rfl).2 rfl
